import Mathlib

/-!
Verification of the tdallas/so-tp2 kernel memory substrate.

Two components are modelled, each as a shallow embedding of the C source:

* the per-process message queue of `src/Kernel/messageQueueADT.c`
  (`isMessageAvailable`, `searchMessageR`, `sendMessage`, `receiveMessage`);
* the buddy allocator of `src/testMemoryManager/buddy.c`
  (`list_*` primitives, `ptr_for_node` / `node_for_ptr`,
  `bucket_for_request`, `lower_bucket_limit`, `malloc`, `free`).

Payload bytes are modelled as `Nat`, C `int` parameters as `Int`, and
pointers/addresses as `Nat` with `0` playing the role of `NULL`.
-/

namespace MsgQueue

/-- A message node's payload, from `struct msg` in the source: the sending
`pid` and the payload buffer.  The source keeps an explicit `length` field
which always equals the number of valid bytes in the buffer; here the
payload is the list of those bytes, so `length` is `data.length`. -/
structure Msg where
  pid : Int
  data : List Nat
deriving DecidableEq

/-- `struct queueHeader` from the source.  `nodes` is the doubly-linked
FIFO read from `first` along the `tail` links (so `queue->last` is the
final element of the list); `waitingForPid` and `messageSize` are the
blocking bookkeeping fields. -/
structure QueueHeader where
  ownerPid : Int
  nodes : List Msg
  waitingForPid : Int
  messageSize : Int
deriving DecidableEq

/-- The accumulator loop of `isMessageAvailable` (source lines 22-33):
walk the list, summing `length` over nodes whose `pid` matches, returning
1 as soon as the running sum `aux` reaches `length`. -/
def isMessageAvailableAux (pid length : Int) : List Msg → Int → Bool
  | [], _ => false
  | m :: rest, aux =>
    if m.pid = pid then
      if aux + (m.data.length : Int) ≥ length then true
      else isMessageAvailableAux pid length rest (aux + (m.data.length : Int))
    else isMessageAvailableAux pid length rest aux

/-- `isMessageAvailable(curr, pid, length)` with `aux` starting at 0. -/
def isMessageAvailable (l : List Msg) (pid length : Int) : Bool :=
  isMessageAvailableAux pid length l 0

/-- `searchMessageR` (source lines 35-66), restricted to its effect on the
forward list and on the destination buffer.  Returns the list reachable
from the returned node pointer together with the bytes written to `dest`
(the source writes them in exactly this order: each fully consumed node's
payload is copied before recursing, a partially consumed node gets its
first `length` bytes copied and its payload shifted left in place).
The `head`/`prev` pointer repair and the `queue->last` update performed by
the source only restore the doubly-linked representation of this list. -/
def searchMessageR : List Msg → Int → Int → List Msg × List Nat
  | [], _, _ => ([], [])
  | m :: rest, pid, length =>
    if m.pid = pid then
      if length ≥ (m.data.length : Int) then
        let r := searchMessageR rest pid (length - (m.data.length : Int))
        (r.1, m.data ++ r.2)
      else
        (⟨m.pid, m.data.drop length.toNat⟩ :: rest, m.data.take length.toNat)
    else
      let r := searchMessageR rest pid length
      (m :: r.1, r.2)

/-- `newMessageQueue(pid)` (source lines 72-79).  The source leaves
`messageSize` uninitialized (malloc garbage), so it is a parameter here. -/
def newMessageQueue (pid : Int) (garbageMessageSize : Int) : QueueHeader :=
  ⟨pid, [], -1, garbageMessageSize⟩

/-- Result of `sendMessage`: the updated queue, and whether the source
reached the `unblockProcess(getProcessByPid(queue->ownerPid))` call. -/
structure SendEffect where
  queue : QueueHeader
  unblocksOwner : Bool
deriving DecidableEq

/-- `sendMessage(queue, pid, text, length)` (source lines 81-105): copy the
payload into a fresh buffer, append the node at the tail, then unblock the
owner when `pid == queue->waitingForPid` and
`isMessageAvailable(queue->first, pid, queue->messageSize - length)` holds.
Note the availability walk runs on the queue that already contains the new
node, while the threshold is `messageSize - length`. -/
def sendMessage (q : QueueHeader) (pid : Int) (text : List Nat) : SendEffect :=
  let newNodes := q.nodes ++ [⟨pid, text⟩]
  ⟨{ q with nodes := newNodes },
   (pid == q.waitingForPid)
     && isMessageAvailable newNodes pid (q.messageSize - (text.length : Int))⟩

/-- Outcome of one pass through `receiveMessage`.  `blocked` is the branch
at source lines 108-115: the waiting fields are written, the owner is
blocked in the scheduler and `yieldProcess()` is called (the source then
recurses, i.e. re-runs the whole check when rescheduled).  `received`
carries the updated queue and the bytes copied into `dest`. -/
inductive ReceiveResult where
  | blocked (q : QueueHeader)
  | received (q : QueueHeader) (dest : List Nat)
deriving DecidableEq

/-- `receiveMessage(queue, pid, dest, length)` (source lines 107-119), one
pass: block when `isMessageAvailable` returns 0, otherwise drain via
`searchMessage` (which assigns the `searchMessageR` result to
`queue->first`).  The success branch does not clear `waitingForPid`. -/
def receiveMessage (q : QueueHeader) (pid length : Int) : ReceiveResult :=
  if isMessageAvailable q.nodes pid length = false then
    .blocked { q with waitingForPid := pid, messageSize := length }
  else
    let r := searchMessageR q.nodes pid length
    .received { q with nodes := r.1 } r.2

/-- Nodes held by the queue after one `receiveMessage` pass. -/
def nodesOf : ReceiveResult → List Msg
  | .blocked q => q.nodes
  | .received q _ => q.nodes

/-- Bytes delivered by one `receiveMessage` pass, `none` when it blocked. -/
def receivedBytes : ReceiveResult → Option (List Nat)
  | .blocked _ => none
  | .received _ d => some d

/-- Total pending bytes from `pid` in the list (the sum that
`isMessageAvailable`'s accumulator approaches). -/
def sumFrom : List Msg → Int → Nat
  | [], _ => 0
  | m :: rest, pid =>
    if m.pid = pid then m.data.length + sumFrom rest pid else sumFrom rest pid

/-- Concatenation, in queue order, of the payloads of `pid`'s messages. -/
def concatFrom : List Msg → Int → List Nat
  | [], _ => []
  | m :: rest, pid =>
    if m.pid = pid then m.data ++ concatFrom rest pid else concatFrom rest pid

/-- Applying a list of `sendMessage` calls in order; each entry is the
sender pid together with the payload bytes. -/
def sendAll (q : QueueHeader) (sends : List (Int × List Nat)) : QueueHeader :=
  sends.foldl (fun acc b => (sendMessage acc b.1 b.2).queue) q

/-- The message nodes a list of sends appends, in order. -/
def msgsOf (sends : List (Int × List Nat)) : List Msg :=
  sends.map (fun b => ⟨b.1, b.2⟩)

end MsgQueue

namespace Buddy

/-- `HEADER_SIZE` from `src/testMemoryManager/buddy.c`. -/
def HEADER_SIZE : Nat := 8

/-- `MIN_ALLOC_LOG2 = 7`. -/
def MIN_ALLOC_LOG2 : Nat := 7

/-- `MIN_ALLOC = 1 << MIN_ALLOC_LOG2 = 128`. -/
def MIN_ALLOC : Nat := 2 ^ MIN_ALLOC_LOG2

/-- `MAX_ALLOC_LOG2 = 29`. -/
def MAX_ALLOC_LOG2 : Nat := 29

/-- `MAX_ALLOC = 1 << MAX_ALLOC_LOG2`. -/
def MAX_ALLOC : Nat := 2 ^ MAX_ALLOC_LOG2

/-- `BUCKET_COUNT = MAX_ALLOC_LOG2 - MIN_ALLOC_LOG2 + 1 = 23`. -/
def BUCKET_COUNT : Nat := MAX_ALLOC_LOG2 - MIN_ALLOC_LOG2 + 1

/-- One circular doubly-linked free-list sentinel (`list_t buckets[i]`).
The `buckets` array is a zero-initialized static, so before `list_init`
runs on an entry, its bytes are `prev = next = NULL` — not a valid
circular list; that state is `zeroed`.  After `list_init` the sentinel is
valid and the list is abstracted by the block addresses it threads, front
to back. -/
inductive FreeList where
  | zeroed
  | valid (blocks : List Nat)
deriving DecidableEq

/-- The undefined behavior marker: the C source dereferenced a NULL or
dangling pointer (e.g. `list_remove(NULL)` reached through a zeroed
sentinel), or performed out-of-contract pointer arithmetic. -/
inductive UB where
  | ub
deriving DecidableEq

/-- The allocator's global state: the free-list array, `bucket_limit`,
the `node_is_split` packed bit array (one Bool per node index), the
`base_ptr` global (an address, `0` playing NULL), and the 8-byte size
headers `malloc` writes at the start of each handed-out block. -/
structure BuddyState where
  buckets : Nat → FreeList
  bucket_limit : Nat
  node_is_split : Nat → Bool
  base_ptr : Nat
  headers : Nat → Nat

/-- The state at program start: statics are zero-initialized
(`bucket_limit = 0`, all sentinels zeroed, all split bits 0) and
`base_ptr` is the hard-coded `0x1000000` (source line 105). -/
def initialBuddyState : BuddyState :=
  { buckets := fun _ => .zeroed
  , bucket_limit := 0
  , node_is_split := fun _ => false
  , base_ptr := 0x1000000
  , headers := fun _ => 0 }

/-- `list_init(&buckets[i])` (source lines 134-137): the sentinel becomes
a valid empty circular list. -/
def listInit (s : BuddyState) (i : Nat) : BuddyState :=
  { s with buckets := fun j => if j = i then .valid [] else s.buckets j }

/-- `list_push(&buckets[i], entry)` (source lines 143-149): append at the
back.  On a zeroed sentinel the source reads `prev = list->prev = NULL`
and then writes `prev->next`, dereferencing NULL. -/
def listPush (s : BuddyState) (i entry : Nat) : Except UB BuddyState :=
  match s.buckets i with
  | .zeroed => .error .ub
  | .valid l =>
    .ok { s with buckets := fun j => if j = i then .valid (l ++ [entry]) else s.buckets j }

/-- `list_pop(&buckets[i])` (source lines 167-172): take from the back,
NULL (`none`) when empty.  On a zeroed sentinel, `back = list->prev =
NULL ≠ list`, so the source calls `list_remove(NULL)` and dereferences
NULL. -/
def listPop (s : BuddyState) (i : Nat) : Except UB (Option Nat × BuddyState) :=
  match s.buckets i with
  | .zeroed => .error .ub
  | .valid l =>
    match l.getLast? with
    | none => .ok (none, s)
    | some a =>
      .ok (some a, { s with buckets := fun j => if j = i then .valid l.dropLast else s.buckets j })

/-- `list_remove(entry)` (source lines 157-162) for an entry that the call
site knows lives on bucket `i`'s list.  Removing an address that is not
on a valid list splices through garbage links: undefined behavior. -/
def listRemove (s : BuddyState) (i entry : Nat) : Except UB BuddyState :=
  match s.buckets i with
  | .zeroed => .error .ub
  | .valid l =>
    if entry ∈ l then
      .ok { s with buckets := fun j => if j = i then .valid (l.erase entry) else s.buckets j }
    else .error .ub

/-- `ptr_for_node(index, bucket)` (source lines 180-182):
`base_ptr + ((index - (1 << bucket) + 1) << (MAX_ALLOC_LOG2 - bucket))`.
The C computes in `size_t` modulo 2^64; every call site has
`index + 1 ≥ 1 << bucket`, where the wrapped value equals
`index + 1 - (1 << bucket)` as written here. -/
def ptr_for_node (s : BuddyState) (index bucket : Nat) : Nat :=
  s.base_ptr + ((index + 1 - 2 ^ bucket) <<< (MAX_ALLOC_LOG2 - bucket))

/-- `node_for_ptr(ptr, bucket)` (source lines 189-191):
`((ptr - base_ptr) >> (MAX_ALLOC_LOG2 - bucket)) + (1 << bucket) - 1`.
Every call site has `ptr ≥ base_ptr`, where truncated `Nat` subtraction
agrees with the C `size_t` difference. -/
def node_for_ptr (s : BuddyState) (ptr bucket : Nat) : Nat :=
  ((ptr - s.base_ptr) >>> (MAX_ALLOC_LOG2 - bucket)) + 2 ^ bucket - 1

/-- `parent_is_split(index)` (source lines 195-198): bit `(index-1)/2` of
the `node_is_split` array (modelled one Bool per bit). -/
def parent_is_split (s : BuddyState) (index : Nat) : Bool :=
  s.node_is_split ((index - 1) / 2)

/-- `flip_parent_is_split(index)` (source lines 203-206). -/
def flip_parent_is_split (s : BuddyState) (index : Nat) : BuddyState :=
  { s with node_is_split := fun j =>
      if j = (index - 1) / 2 then !s.node_is_split ((index - 1) / 2) else s.node_is_split j }

/-- The doubling loop of `bucket_for_request` (source lines 212-222):
`bucket = BUCKET_COUNT - 1; size = MIN_ALLOC; while (size < request)
{ bucket--; size *= 2; }`.  For any `request ≤ MAX_ALLOC` the loop runs at
most `BUCKET_COUNT - 1` times, so fuel `BUCKET_COUNT` is exact there; the
source's behavior past bucket 0 (size_t wraparound) is unreachable from
`malloc`/`free` under their contracts. -/
def bucketForRequestGo (request : Nat) : Nat → Nat → Nat → Nat
  | 0, bucket, _ => bucket
  | fuel + 1, bucket, size =>
    if size < request then bucketForRequestGo request fuel (bucket - 1) (size * 2)
    else bucket

/-- `bucket_for_request(request)`. -/
def bucket_for_request (request : Nat) : Nat :=
  bucketForRequestGo request BUCKET_COUNT (BUCKET_COUNT - 1) MIN_ALLOC

/-- One-per-iteration recursion for the `while (bucket < bucket_limit)`
loop of `lower_bucket_limit` (source lines 229-273).  Each iteration
decrements `bucket_limit` exactly once, so the fuel
`s.bucket_limit - bucket` supplied by `lower_bucket_limit` makes the
guard and the fuel run out together. -/
def lowerLoop : Nat → BuddyState → Nat → Except UB BuddyState
  | 0, s, _ => .ok s
  | fuel + 1, s, bucket =>
    if bucket < s.bucket_limit then
      let root := node_for_ptr s s.base_ptr s.bucket_limit
      if parent_is_split s root = false then
        -- entire tree free: move the single block at base up one level
        match listRemove s s.bucket_limit s.base_ptr with
        | .error e => .error e
        | .ok s1 =>
          let s2 := { s1 with bucket_limit := s1.bucket_limit - 1 }
          let s3 := listInit s2 s2.bucket_limit
          match listPush s3 s3.bucket_limit s3.base_ptr with
          | .error e => .error e
          | .ok s4 => lowerLoop fuel s4 bucket
      else
        -- tree in use: add a free right sibling, then a new root above
        let right_child := ptr_for_node s (root + 1) s.bucket_limit
        match listPush s s.bucket_limit right_child with
        | .error e => .error e
        | .ok s1 =>
          let s2 := { s1 with bucket_limit := s1.bucket_limit - 1 }
          let s3 := listInit s2 s2.bucket_limit
          let root2 := (root - 1) / 2
          let s4 := if root2 ≠ 0 then flip_parent_is_split s3 root2 else s3
          lowerLoop fuel s4 bucket
    else .ok s

/-- `lower_bucket_limit(bucket)`.  The source's only failure path
(`update_max_ptr`) is commented out, so it returns 1 unless it runs into
undefined behavior. -/
def lower_bucket_limit (s : BuddyState) (bucket : Nat) : Except UB BuddyState :=
  lowerLoop (s.bucket_limit - bucket) s bucket

/-- The `while (bucket < original_bucket)` split-descend loop of `malloc`
(source lines 387-392): move to the left child, flip the new parent's
split bit, push the right child.  Fuel is `original_bucket - bucket`,
exactly the iteration count. -/
def splitDown (original : Nat) : Nat → BuddyState → Nat → Nat → Except UB (BuddyState × Nat × Nat)
  | 0, s, i, bucket => .ok (s, i, bucket)
  | fuel + 1, s, i, bucket =>
    if bucket < original then
      let i2 := i * 2 + 1
      let bucket2 := bucket + 1
      let s1 := flip_parent_is_split s i2
      match listPush s1 bucket2 (ptr_for_node s1 (i2 + 1) bucket2) with
      | .error e => .error e
      | .ok s2 => splitDown original fuel s2 i2 bucket2
    else .ok (s, i, bucket)

/-- Tail of a `malloc` loop iteration once a block `p` has been popped
from bucket `bucket` (source lines 357-399): flip the parent's split bit
(unless at the root), split down to `original`, write the request size
into the 8-byte header at `p`, and return `p + HEADER_SIZE`.
(The `size`/`bytes_needed` computation at lines 357-358 only feeds the
commented-out `update_max_ptr` call and is dropped.) -/
def finishAlloc (request original : Nat) (s : BuddyState) (p bucket : Nat) :
    Except UB (Nat × BuddyState) :=
  let i := node_for_ptr s p bucket
  let s1 := if i ≠ 0 then flip_parent_is_split s i else s
  match splitDown original (original - bucket) s1 i bucket with
  | .error e => .error e
  | .ok (s2, _, _) =>
    let s3 := { s2 with headers := fun a => if a = p then request else s2.headers a }
    .ok (p + HEADER_SIZE, s3)

/-- The `while (bucket + 1 != 0)` search loop of `malloc` (source lines
313-400).  `bucket` is a `size_t`: the loop exits after the iteration
that decrements it below zero, so fuel `bucket + 1` bounds the remaining
iterations, and the `bucket = 0` decrement-and-exit is the explicit
`.ok (0, s)` (malloc's final `return NULL`). -/
def mallocLoop (request original : Nat) : Nat → BuddyState → Nat → Except UB (Nat × BuddyState)
  | 0, s, _ => .ok (0, s)
  | fuel + 1, s, bucket =>
    match listPop s bucket with
    | .error e => .error e
    | .ok (none, s1) =>
      if bucket ≠ s1.bucket_limit ∨ bucket = 0 then
        -- look in a larger bucket; decrementing past 0 ends the loop
        if bucket = 0 then .ok (0, s1)
        else mallocLoop request original fuel s1 (bucket - 1)
      else
        match lower_bucket_limit s1 (bucket - 1) with
        | .error e => .error e
        | .ok s2 =>
          match listPop s2 bucket with
          | .error e => .error e
          | .ok (none, _) =>
            -- the source would run node_for_ptr(NULL, bucket) on a NULL
            -- pop: out-of-contract pointer arithmetic (unreachable: the
            -- growth just pushed a right child onto this bucket)
            .error .ub
          | .ok (some p, s3) => finishAlloc request original s3 p bucket
    | .ok (some p, s1) => finishAlloc request original s1 p bucket

/-- `malloc(request)` (source lines 275-403).  Fails early when
`request + HEADER_SIZE > MAX_ALLOC`; then runs the initialization block
(lines 293-299) only when `base_ptr == NULL` — and `base_ptr` is the
hard-coded `0x1000000`, never NULL; then searches the buckets starting at
`bucket_for_request(request + HEADER_SIZE)`.  The returned pointer is 0
for the C `NULL`. -/
def malloc (s : BuddyState) (request : Nat) : Except UB (Nat × BuddyState) :=
  if request + HEADER_SIZE > MAX_ALLOC then .ok (0, s)
  else
    let afterInit : Except UB BuddyState :=
      if s.base_ptr = 0 then
        let s1 := { s with bucket_limit := BUCKET_COUNT - 1 }
        let s2 := listInit s1 (BUCKET_COUNT - 1)
        listPush s2 (BUCKET_COUNT - 1) s2.base_ptr
      else .ok s
    match afterInit with
    | .error e => .error e
    | .ok s1 =>
      let bucket := bucket_for_request (request + HEADER_SIZE)
      mallocLoop request bucket (bucket + 1) s1 bucket

/-- The `while (i != 0)` merge loop of `free` (source lines 428-459):
flip the parent's split bit; stop when the parent is now SPLIT (the buddy
is used) or the node is the current root; otherwise remove the buddy from
its free list and move to the parent.  Each continuing iteration
decrements `bucket`, so fuel `bucket` suffices; running out of fuel with
the loop still going would mean `bucket` wrapped below zero in the C
(out of contract). -/
def freeLoop : Nat → BuddyState → Nat → Nat → Except UB (Nat × Nat × BuddyState)
  | 0, s, i, bucket =>
    if i ≠ 0 then
      let s1 := flip_parent_is_split s i
      if parent_is_split s1 i = true ∨ bucket = s1.bucket_limit then .ok (i, bucket, s1)
      else .error .ub
    else .ok (i, bucket, s)
  | fuel + 1, s, i, bucket =>
    if i ≠ 0 then
      let s1 := flip_parent_is_split s i
      if parent_is_split s1 i = true ∨ bucket = s1.bucket_limit then .ok (i, bucket, s1)
      else
        match listRemove s1 bucket (ptr_for_node s1 (((i - 1) ^^^ 1) + 1) bucket) with
        | .error e => .error e
        | .ok s2 => freeLoop fuel s2 ((i - 1) / 2) (bucket - 1)
    else .ok (i, bucket, s)

/-- `free(ptr)` (source lines 405-468): NULL is a no-op; otherwise read
the stored request size from the header at `ptr - HEADER_SIZE`, recover
the bucket, run the merge loop, and push the final block onto the back of
its bucket's free list. -/
def free (s : BuddyState) (ptr : Nat) : Except UB BuddyState :=
  if ptr = 0 then .ok s
  else
    let p := ptr - HEADER_SIZE
    let bucket := bucket_for_request (s.headers p + HEADER_SIZE)
    let i := node_for_ptr s p bucket
    match freeLoop bucket s i bucket with
    | .error e => .error e
    | .ok (iF, bucketF, s1) =>
      match listPush s1 bucketF (ptr_for_node s1 iF bucketF) with
      | .error e => .error e
      | .ok s2 => .ok s2

end Buddy

namespace MsgQueue

theorem exists_match_of_sumFrom_pos (pid : Int) :
    ∀ l : List Msg, 0 < sumFrom l pid → ∃ m ∈ l, m.pid = pid := by
  intro l
  induction l with
  | nil => intro h; simp [sumFrom] at h
  | cons m rest ih =>
    intro h
    by_cases hm : m.pid = pid
    · exact ⟨m, List.mem_cons_self m rest, hm⟩
    · rw [sumFrom, if_neg hm] at h
      obtain ⟨x, hx, hxp⟩ := ih h
      exact ⟨x, List.mem_cons_of_mem _ hx, hxp⟩

theorem isMessageAvailableAux_true_iff (pid n : Int) :
    ∀ (l : List Msg) (aux : Int),
      isMessageAvailableAux pid n l aux = true
        ↔ ((∃ m ∈ l, m.pid = pid) ∧ n ≤ aux + (sumFrom l pid : Int)) := by
  intro l
  induction l with
  | nil => intro aux; simp [isMessageAvailableAux, sumFrom]
  | cons m rest ih =>
    intro aux
    rw [isMessageAvailableAux, sumFrom]
    by_cases h : m.pid = pid
    · rw [if_pos h, if_pos h]
      by_cases h2 : aux + (m.data.length : Int) ≥ n
      · rw [if_pos h2]
        constructor
        · intro _
          refine ⟨⟨m, List.mem_cons_self m rest, h⟩, ?_⟩
          push_cast
          omega
        · intro _
          rfl
      · rw [if_neg h2, ih]
        constructor
        · rintro ⟨_, hle⟩
          refine ⟨⟨m, List.mem_cons_self m rest, h⟩, ?_⟩
          push_cast at hle ⊢
          omega
        · rintro ⟨_, hle⟩
          have hpos : 0 < sumFrom rest pid := by
            by_contra hz
            push_neg at hz
            have hz0 : sumFrom rest pid = 0 := Nat.le_zero.mp hz
            rw [hz0] at hle
            push_cast at hle
            omega
          refine ⟨exists_match_of_sumFrom_pos pid rest hpos, ?_⟩
          push_cast at hle ⊢
          omega
    · rw [if_neg h, if_neg h, ih]
      constructor
      · rintro ⟨⟨x, hx, hxp⟩, hle⟩
        exact ⟨⟨x, List.mem_cons_of_mem _ hx, hxp⟩, hle⟩
      · rintro ⟨⟨x, hx, hxp⟩, hle⟩
        rcases List.mem_cons.mp hx with rfl | hx2
        · exact absurd hxp h
        · exact ⟨⟨x, hx2, hxp⟩, hle⟩

theorem isMessageAvailable_true_iff (l : List Msg) (pid n : Int) :
    isMessageAvailable l pid n = true
      ↔ ((∃ m ∈ l, m.pid = pid) ∧ n ≤ (sumFrom l pid : Int)) := by
  rw [isMessageAvailable, isMessageAvailableAux_true_iff, zero_add]

theorem sumFrom_append (pid : Int) :
    ∀ a b : List Msg, sumFrom (a ++ b) pid = sumFrom a pid + sumFrom b pid := by
  intro a b
  induction a with
  | nil => simp [sumFrom]
  | cons m rest ih =>
    by_cases h : m.pid = pid
    · simp [sumFrom, h, ih, Nat.add_assoc]
    · simp [sumFrom, h, ih]

theorem concatFrom_append (pid : Int) :
    ∀ a b : List Msg, concatFrom (a ++ b) pid = concatFrom a pid ++ concatFrom b pid := by
  intro a b
  induction a with
  | nil => simp [concatFrom]
  | cons m rest ih =>
    by_cases h : m.pid = pid
    · simp [concatFrom, h, ih]
    · simp [concatFrom, h, ih]

theorem concatFrom_length (pid : Int) :
    ∀ l : List Msg, (concatFrom l pid).length = sumFrom l pid := by
  intro l
  induction l with
  | nil => simp [concatFrom, sumFrom]
  | cons m rest ih =>
    by_cases h : m.pid = pid
    · simp [concatFrom, sumFrom, h, ih]
    · simp [concatFrom, sumFrom, h, ih]

theorem searchMessageR_snd (pid : Int) :
    ∀ (l : List Msg) (n : Int), 0 ≤ n →
      (searchMessageR l pid n).2 = (concatFrom l pid).take n.toNat := by
  intro l
  induction l with
  | nil => intro n hn; simp [searchMessageR, concatFrom]
  | cons m rest ih =>
    intro n hn
    by_cases h : m.pid = pid
    · by_cases h2 : n ≥ (m.data.length : Int)
      · rw [searchMessageR, if_pos h, if_pos h2, concatFrom, if_pos h]
        have hlen : m.data.length ≤ n.toNat := by omega
        simp only []
        rw [ih (n - (m.data.length : Int)) (by omega)]
        rw [List.take_append_eq_append_take, List.take_of_length_le hlen]
        congr 1
        congr 1
        omega
      · rw [searchMessageR, if_pos h, if_neg h2, concatFrom, if_pos h]
        simp only []
        rw [List.take_append_of_le_length (by omega)]
    · rw [searchMessageR, if_neg h, concatFrom, if_neg h]
      simp only []
      exact ih n hn

theorem searchMessageR_fst_of_total_le (pid : Int) :
    ∀ (l : List Msg) (n : Int), (sumFrom l pid : Int) ≤ n →
      (searchMessageR l pid n).1 = l.filter (fun m => !(m.pid == pid)) := by
  intro l
  induction l with
  | nil => intro n _; simp [searchMessageR]
  | cons m rest ih =>
    intro n hle
    by_cases h : m.pid = pid
    · rw [sumFrom, if_pos h] at hle
      push_cast at hle
      have h2 : n ≥ (m.data.length : Int) := by
        have : (0 : Int) ≤ (sumFrom rest pid : Int) := Int.natCast_nonneg _
        omega
      rw [searchMessageR, if_pos h, if_pos h2]
      simp only []
      rw [ih (n - (m.data.length : Int)) (by omega)]
      rw [List.filter_cons]
      simp [h]
    · rw [sumFrom, if_neg h] at hle
      rw [searchMessageR, if_neg h]
      simp only []
      rw [ih n hle, List.filter_cons]
      simp [h]

theorem searchMessageR_fst_filter (X Y : Int) (hXY : Y ≠ X) :
    ∀ (l : List Msg) (n : Int),
      ((searchMessageR l X n).1).filter (fun m => m.pid == Y)
        = l.filter (fun m => m.pid == Y) := by
  intro l
  induction l with
  | nil => intro n; simp [searchMessageR]
  | cons m rest ih =>
    intro n
    by_cases h : m.pid = X
    · have hmY : (m.pid == Y) = false := by
        simp [h]
        omega
      by_cases h2 : n ≥ (m.data.length : Int)
      · rw [searchMessageR, if_pos h, if_pos h2]
        simp only []
        rw [ih, List.filter_cons, hmY]
        simp
      · rw [searchMessageR, if_pos h, if_neg h2]
        simp only []
        rw [List.filter_cons, List.filter_cons]
        simp only [hmY]
        simp [h]
    · rw [searchMessageR, if_neg h]
      simp only []
      rw [List.filter_cons, List.filter_cons, ih]

theorem searchMessageR_append_of_no_match (pid : Int) (l : List Msg) (n : Int) :
    ∀ pre : List Msg, (∀ x ∈ pre, x.pid ≠ pid) →
      searchMessageR (pre ++ l) pid n
        = (pre ++ (searchMessageR l pid n).1, (searchMessageR l pid n).2) := by
  intro pre
  induction pre with
  | nil => intro _; simp
  | cons x pre ih =>
    intro hpre
    have hx : x.pid ≠ pid := hpre x (List.mem_cons_self x pre)
    rw [List.cons_append, searchMessageR, if_neg hx]
    simp only []
    rw [ih (fun y hy => hpre y (List.mem_cons_of_mem _ hy))]
    simp

theorem sendAll_eq (sends : List (Int × List Nat)) :
    ∀ q : QueueHeader, sendAll q sends = { q with nodes := q.nodes ++ msgsOf sends } := by
  induction sends with
  | nil => intro q; simp [sendAll, msgsOf]
  | cons b rest ih =>
    intro q
    rw [sendAll, List.foldl_cons]
    have : (sendMessage q b.1 b.2).queue = { q with nodes := q.nodes ++ [⟨b.1, b.2⟩] } := rfl
    rw [show List.foldl (fun acc b => (sendMessage acc b.1 b.2).queue)
          ((sendMessage q b.1 b.2).queue) rest
        = sendAll ((sendMessage q b.1 b.2).queue) rest from rfl]
    rw [ih, this]
    simp [msgsOf, List.append_assoc]

end MsgQueue

namespace MsgQueue

theorem concatFrom_eq_nil_of_no_match (pid : Int) :
    ∀ l : List Msg, (∀ x ∈ l, x.pid ≠ pid) → concatFrom l pid = [] := by
  intro l
  induction l with
  | nil => intro _; rfl
  | cons m rest ih =>
    intro hl
    rw [concatFrom, if_neg (hl m (List.mem_cons_self m rest))]
    exact ih (fun y hy => hl y (List.mem_cons_of_mem _ hy))

/-- Claim C1 (amended): on a `send`, the owner-unblock call is reached if
and only if the sender equals `waitingForPid` and the cumulative pending
bytes from that sender, counted after the new message is appended, reach
`messageSize - length` — not `messageSize` as the claim states: the
appended message is counted both in the pending sum and against the
threshold. -/
theorem send_unblock_condition (q : QueueHeader) (pid : Int) (text : List Nat) :
    (sendMessage q pid text).unblocksOwner = true
      ↔ (pid = q.waitingForPid
         ∧ q.messageSize - (text.length : Int)
             ≤ (sumFrom (q.nodes ++ [⟨pid, text⟩]) pid : Int)) := by
  rw [show (sendMessage q pid text).unblocksOwner
      = ((pid == q.waitingForPid)
          && isMessageAvailable (q.nodes ++ [⟨pid, text⟩]) pid
               (q.messageSize - (text.length : Int))) from rfl]
  rw [Bool.and_eq_true, beq_iff_eq, isMessageAvailable_true_iff]
  have hex : ∃ m ∈ q.nodes ++ [(⟨pid, text⟩ : Msg)], m.pid = pid :=
    ⟨⟨pid, text⟩, by simp, rfl⟩
  constructor
  · rintro ⟨h1, _, h2⟩
    exact ⟨h1, h2⟩
  · rintro ⟨h1, h2⟩
    exact ⟨h1, hex, h2⟩

/-- Claim C1 (counterexample): with the owner blocked waiting for 10
bytes from pid 1 on an empty queue, a 6-byte send from pid 1 reaches the
unblock call although the pending bytes from pid 1 after the append are
6 < 10, refuting both directions of the claimed equivalence and the
claimed consequence (unblock implies pending ≥ required). -/
theorem send_unblock_counterexample :
    (sendMessage ⟨0, [], 1, 10⟩ 1 [0, 0, 0, 0, 0, 0]).unblocksOwner = true
      ∧ ((sumFrom (sendMessage ⟨0, [], 1, 10⟩ 1 [0, 0, 0, 0, 0, 0]).queue.nodes 1 : Int) < 10) := by
  decide

/-- Claim C4: after any sequence of sends (sender `s` interleaved with
other senders) into a fresh queue, a single receive asking for exactly
the total number of bytes sent by `s` copies into `dest` exactly the
concatenation of `s`'s payloads in send order (and consumes exactly
`s`'s messages, leaving the others in place). -/
theorem receive_total_is_concat (owner g s : Int) (sends : List (Int × List Nat))
    (h : ∃ b ∈ sends, b.1 = s) :
    receiveMessage (sendAll (newMessageQueue owner g) sends) s (sumFrom (msgsOf sends) s : Int)
      = .received ⟨owner, (msgsOf sends).filter (fun m => !(m.pid == s)), -1, g⟩
          (concatFrom (msgsOf sends) s) := by
  rw [sendAll_eq]
  have hq : ({ newMessageQueue owner g with
        nodes := (newMessageQueue owner g).nodes ++ msgsOf sends } : QueueHeader)
      = ⟨owner, msgsOf sends, -1, g⟩ := by
    simp [newMessageQueue]
  rw [hq]
  have hex : ∃ m ∈ msgsOf sends, m.pid = s := by
    obtain ⟨b, hb, hbs⟩ := h
    exact ⟨⟨b.1, b.2⟩, List.mem_map_of_mem _ hb, hbs⟩
  have havail : isMessageAvailable (msgsOf sends) s (sumFrom (msgsOf sends) s : Int) = true :=
    (isMessageAvailable_true_iff _ _ _).mpr ⟨hex, le_refl _⟩
  rw [receiveMessage,
    if_neg (by simp [havail] :
      ¬(isMessageAvailable (msgsOf sends) s (sumFrom (msgsOf sends) s : Int) = false))]
  have h1 := searchMessageR_fst_of_total_le s (msgsOf sends)
    (sumFrom (msgsOf sends) s : Int) (le_refl _)
  have h2 := searchMessageR_snd s (msgsOf sends)
    (sumFrom (msgsOf sends) s : Int) (Int.natCast_nonneg _)
  simp only [h1, h2]
  rw [Int.toNat_natCast, ← concatFrom_length, List.take_length]

/-- Witness for C4 at the concrete interleaving
`(9,[65]), (8,[66]), (9,[67])`, receiving 2 bytes from pid 9. -/
theorem receive_total_is_concat_witness :
    receiveMessage (sendAll (newMessageQueue 0 0) [(9, [65]), (8, [66]), (9, [67])]) 9 2
      = .received ⟨0, [⟨8, [66]⟩], -1, 0⟩ [65, 67] := by
  have h := receive_total_is_concat 0 0 9 [(9, [65]), (8, [66]), (9, [67])]
    ⟨(9, [65]), by decide, rfl⟩
  exact h

/-- Claim C8: when the first message from `pid` has length `L` and the
receive asks for `k < L` bytes, the receive copies the first `k` bytes of
that message, shortens the message in place to its `L - k` suffix, and a
subsequent receive of the remaining `L - k` bytes from the same sender
delivers exactly the original message's suffix. -/
theorem receive_partial_shortens (owner w ms pid : Int) (pre post : List Msg) (m : Msg)
    (k : Nat) (hpre : ∀ x ∈ pre, x.pid ≠ pid) (hm : m.pid = pid)
    (hk : k < m.data.length) :
    receiveMessage ⟨owner, pre ++ m :: post, w, ms⟩ pid (k : Int)
      = .received ⟨owner, pre ++ ⟨m.pid, m.data.drop k⟩ :: post, w, ms⟩ (m.data.take k)
    ∧ receivedBytes (receiveMessage ⟨owner, pre ++ ⟨m.pid, m.data.drop k⟩ :: post, w, ms⟩
          pid ((m.data.length - k : Nat) : Int))
      = some (m.data.drop k) := by
  constructor
  · have hex : ∃ x ∈ pre ++ m :: post, x.pid = pid := ⟨m, by simp, hm⟩
    have hsum : (k : Int) ≤ (sumFrom (pre ++ m :: post) pid : Int) := by
      rw [sumFrom_append, sumFrom, if_pos hm]
      push_cast
      omega
    have havail : isMessageAvailable (pre ++ m :: post) pid (k : Int) = true :=
      (isMessageAvailable_true_iff _ _ _).mpr ⟨hex, hsum⟩
    rw [receiveMessage,
      if_neg (by simp [havail] :
        ¬(isMessageAvailable (⟨owner, pre ++ m :: post, w, ms⟩ : QueueHeader).nodes pid
            (k : Int) = false))]
    have hskip := searchMessageR_append_of_no_match pid (m :: post) (k : Int) pre hpre
    have hbranch : searchMessageR (m :: post) pid (k : Int)
        = (⟨m.pid, m.data.drop (k : Int).toNat⟩ :: post, m.data.take (k : Int).toNat) := by
      rw [searchMessageR, if_pos hm, if_neg (by omega)]
    simp only [hskip, hbranch, Int.toNat_natCast]
  · have hpid : (⟨m.pid, m.data.drop k⟩ : Msg).pid = pid := hm
    have hex : ∃ x ∈ pre ++ ⟨m.pid, m.data.drop k⟩ :: post, x.pid = pid :=
      ⟨⟨m.pid, m.data.drop k⟩, by simp, hpid⟩
    have hdroplen : (m.data.drop k).length = m.data.length - k := List.length_drop k m.data
    have hsum : ((m.data.length - k : Nat) : Int)
        ≤ (sumFrom (pre ++ ⟨m.pid, m.data.drop k⟩ :: post) pid : Int) := by
      rw [sumFrom_append, sumFrom, if_pos hpid]
      push_cast [hdroplen]
      omega
    have havail : isMessageAvailable (pre ++ ⟨m.pid, m.data.drop k⟩ :: post) pid
        ((m.data.length - k : Nat) : Int) = true :=
      (isMessageAvailable_true_iff _ _ _).mpr ⟨hex, hsum⟩
    rw [receiveMessage,
      if_neg (by simp [havail] :
        ¬(isMessageAvailable (⟨owner, pre ++ ⟨m.pid, m.data.drop k⟩ :: post, w, ms⟩ :
            QueueHeader).nodes pid ((m.data.length - k : Nat) : Int) = false))]
    have hsnd := searchMessageR_snd pid (pre ++ ⟨m.pid, m.data.drop k⟩ :: post)
      ((m.data.length - k : Nat) : Int) (Int.natCast_nonneg _)
    rw [receivedBytes]
    rw [hsnd, Int.toNat_natCast, concatFrom_append,
      concatFrom_eq_nil_of_no_match pid pre hpre, List.nil_append,
      concatFrom, if_pos hpid,
      List.take_append_of_le_length (by rw [hdroplen]),
      List.take_of_length_le (le_of_eq hdroplen)]

/-- Witness for C8: a 3-byte message from pid 10, received 1 byte then
2 bytes. -/
theorem receive_partial_shortens_witness :
    receiveMessage ⟨0, [⟨10, [1, 2, 3]⟩], -1, 0⟩ 10 (1 : Int)
      = .received ⟨0, [⟨10, [2, 3]⟩], -1, 0⟩ [1]
    ∧ receivedBytes (receiveMessage ⟨0, [⟨10, [2, 3]⟩], -1, 0⟩ 10 2) = some [2, 3] := by
  have h := receive_partial_shortens 0 (-1) 0 10 [] [] ⟨10, [1, 2, 3]⟩ 1
    (by simp) rfl (by decide)
  exact h

/-- Claim C9: a receive addressed to sender X leaves the subsequence of
messages from any other sender Y untouched: same payloads, same lengths,
same relative order (and the blocked branch leaves the whole queue
untouched). -/
theorem receive_frame_other_sender (q : QueueHeader) (X len Y : Int) (h : Y ≠ X) :
    (nodesOf (receiveMessage q X len)).filter (fun m => m.pid == Y)
      = q.nodes.filter (fun m => m.pid == Y) := by
  rw [receiveMessage]
  by_cases hav : isMessageAvailable q.nodes X len = false
  · rw [if_pos hav]
    rfl
  · rw [if_neg hav]
    exact searchMessageR_fst_filter X Y h q.nodes len

/-- Witness for C9: receiving from pid 6 leaves pid 5's message intact. -/
theorem receive_frame_other_sender_witness :
    (nodesOf (receiveMessage ⟨0, [⟨5, [1]⟩, ⟨6, [2]⟩], -1, 0⟩ 6 1)).filter
        (fun m => m.pid == 5)
      = [⟨5, [1]⟩] := by
  have h := receive_frame_other_sender ⟨0, [⟨5, [1]⟩, ⟨6, [2]⟩], -1, 0⟩ 6 1 5 (by decide)
  exact h.trans (by decide)

/-- Claim C10: on a queue holding no message from `pid`, a receive of
length 0 takes the blocking branch — it records `waitingForPid = pid` and
`messageSize = 0` and blocks/yields the owner — rather than returning
immediately with zero bytes, because `isMessageAvailable` returns 0
whenever no matching message exists, even for a requested length of 0. -/
theorem receive_zero_blocks_when_no_sender (q : QueueHeader) (pid : Int)
    (h : ∀ m ∈ q.nodes, m.pid ≠ pid) :
    receiveMessage q pid 0 = .blocked { q with waitingForPid := pid, messageSize := 0 } := by
  have hav : isMessageAvailable q.nodes pid 0 = false := by
    by_contra hne
    have htrue : isMessageAvailable q.nodes pid 0 = true := by
      cases hB : isMessageAvailable q.nodes pid 0
      · exact absurd hB hne
      · rfl
    obtain ⟨⟨x, hx, hxp⟩, _⟩ := (isMessageAvailable_true_iff _ _ _).mp htrue
    exact h x hx hxp
  rw [receiveMessage, if_pos hav]

/-- Witness for C10 on the empty queue of owner 1000, sender pid 7. -/
theorem receive_zero_blocks_when_no_sender_witness :
    receiveMessage ⟨1000, [], -1, 5⟩ 7 0 = .blocked ⟨1000, [], 7, 0⟩ := by
  have h := receive_zero_blocks_when_no_sender ⟨1000, [], -1, 5⟩ 7 (by simp)
  exact h

end MsgQueue

namespace Buddy

/-- Claim C2 (refuted, code bug): the claim says the first `allocate`
initializes the allocator when it is not yet initialized.  But the guard
of the initialization block is `base_ptr == NULL` and `base_ptr` is the
hard-coded `0x1000000`, never NULL, so the block (set
`bucket_limit = BUCKET_COUNT - 1`, `list_init` the last bucket, push
`base`) is dead code: the first `malloc` call of the test program,
`malloc(500000)`, instead pops from the still-zeroed `buckets[10]`
sentinel and `list_remove(NULL)` dereferences NULL. -/
theorem malloc_first_call_never_initializes :
    initialBuddyState.base_ptr ≠ 0 ∧ malloc initialBuddyState 500000 = .error .ub :=
  ⟨by decide, by rfl⟩

/-- Claim C3 (code bug): the disjoint-live-intervals invariant is about
addresses returned by successful `allocate` calls, but no `allocate` can
ever complete: already the one-operation sequence `allocate(1)` pops the
zeroed `buckets[BUCKET_COUNT-1]` sentinel (initialization never ran) and
dereferences NULL instead of returning an address in the window. -/
theorem allocate_one_crashes :
    malloc initialBuddyState 1 = .error .ub := by
  rfl

/-- Claim C5 (code bug): the `release(allocate(n))` round-trip cannot be
exercised on the code as written: the `allocate(n)` half already
dereferences NULL on the zeroed free-list sentinel (shown here for
n = 100), so no state-restoration property can hold or fail. -/
theorem allocate_release_roundtrip_crashes :
    malloc initialBuddyState 100 = .error .ub := by
  rfl

/-- Claim C6 (code bug): the coalescing scenario's first step,
`allocate(200)` on a fresh allocator, pops the zeroed `buckets[21]`
sentinel and dereferences NULL; the scenario never reaches the releases,
let alone returns `base + 8` from the 500-byte allocation. -/
theorem coalesce_scenario_crashes :
    malloc initialBuddyState 200 = .error .ub := by
  rfl

/-- Claim C7 (half right, code bug): `allocate(MAX_ALLOC - 7)` does fail
cleanly — the `request + HEADER_SIZE > MAX_ALLOC` guard runs before any
list operation and returns NULL with the state untouched — but
`allocate(MAX_ALLOC - 8)` on a fresh allocator does not return the
root-sized block: it pops the zeroed `buckets[0]` sentinel and
dereferences NULL. -/
theorem allocate_bounds :
    malloc initialBuddyState (MAX_ALLOC - 7) = .ok (0, initialBuddyState)
    ∧ malloc initialBuddyState (MAX_ALLOC - 8) = .error .ub :=
  ⟨by rfl, by rfl⟩

end Buddy
